import Mathlib

/-!
Shallow embedding of `src/venv_fix.py` (Windows venv executable repair tool).

Raw file bytes are modelled as `List Nat` (each element a byte value).
The two byte-regex searches of `repair_file`,

  pattern1 = rb"(?<=#!)[^\r\n]*(?=[\r\n]+PK)"   (primary)
  pattern2 = rb"(?<=#!)[^\r\n]*"               (secondary)

are embedded as left-to-right scans over the byte list.  `re.search` tries
anchor positions left to right; with the fixed-width lookbehind `(?<=#!)`
the anchors are exactly the positions directly after an occurrence of the
two bytes `#!` (35, 33).  At such an anchor, the greedy `[^\r\n]*` consumes
the maximal run of non-CR/LF bytes; backtracking into the run can never
satisfy `[\r\n]+` (the next byte would be a non-CR/LF byte), so pattern1
matches at an anchor iff the maximal non-CR/LF run is followed by a
non-empty maximal run of CR/LF bytes which is immediately followed by the
two bytes `PK` (80, 75), and the match span is exactly the maximal
non-CR/LF run.  pattern2 matches at every anchor with that same span.

Patching (`content[:start] + new + content[end:]`) is `List.take` and
`List.drop` concatenation.  The per-file driver logic of `repair_file` and
the batch loop of `main` are modelled with explicit error values.
-/

namespace VenvFix

/-- A byte is a line break: `\r` (13) or `\n` (10), the class `[\r\n]`. -/
def isCRLF (b : Nat) : Bool := b == 13 || b == 10

/-- Length of the maximal leading run of non-CR/LF bytes: what the greedy
`[^\r\n]*` consumes. -/
def runLen : List Nat → Nat
  | [] => 0
  | b :: bs => if isCRLF b then 0 else runLen bs + 1

/-- Length of the maximal leading run of CR/LF bytes: what the greedy
`[\r\n]+` can consume (the `+` additionally requires this to be nonzero). -/
def crlfLen : List Nat → Nat
  | [] => 0
  | b :: bs => if isCRLF b then crlfLen bs + 1 else 0

/-- The list starts with the two bytes `PK` (80, 75), the archive
signature literal of pattern1. -/
def startsWithPK : List Nat → Bool
  | p :: k :: _ => p == 80 && k == 75
  | _ => false

/-- pattern1 matches at an anchor whose remaining bytes are `l`:
the maximal non-CR/LF run is followed by one-or-more CR/LF bytes and then
the `PK` signature (the lookahead `(?=[\r\n]+PK)`). -/
def primaryCond (l : List Nat) : Bool :=
  crlfLen (l.drop (runLen l)) != 0 &&
    startsWithPK (l.drop (runLen l + crlfLen (l.drop (runLen l))))

/-- `re.search(pattern1, content)`: scan marker positions left to right,
return the span (absolute half-open byte offsets) of the first anchor at
which pattern1 matches, i.e. the span of the maximal non-CR/LF run after
the first `#!` whose primary condition holds. -/
def findPrimary : List Nat → Option (Nat × Nat)
  | [] => none
  | a :: l =>
    match l with
    | [] => none
    | b :: rest =>
      if a == 35 && b == 33 && primaryCond rest then
        some (2, 2 + runLen rest)
      else
        (findPrimary l).map (fun p => (p.1 + 1, p.2 + 1))

/-- `re.search(pattern2, content)`: the span of the maximal non-CR/LF run
after the first `#!` marker (pattern2 matches at every anchor). -/
def findSecondary : List Nat → Option (Nat × Nat)
  | [] => none
  | a :: l =>
    match l with
    | [] => none
    | b :: rest =>
      if a == 35 && b == 33 then
        some (2, 2 + runLen rest)
      else
        (findSecondary l).map (fun p => (p.1 + 1, p.2 + 1))

/-- `Locate`: the primary search, falling back to the secondary search when
the primary finds no match (lines 41-45 of `venv_fix.py`). -/
def locate (content : List Nat) : Option (Nat × Nat) :=
  match findPrimary content with
  | some span => some span
  | none => findSecondary content

/-- `Patch`: `content[:start] + replacement + content[end:]`
(line 73 of `venv_fix.py`). -/
def patch (content : List Nat) (s e : Nat) (r : List Nat) : List Nat :=
  content.take s ++ r ++ content.drop e

/-- The two-byte marker `#!` (35, 33) occurs at offset `p`. -/
def markerAt (content : List Nat) (p : Nat) : Prop :=
  content[p]? = some 35 ∧ content[p + 1]? = some 33

instance (content : List Nat) (p : Nat) : Decidable (markerAt content p) := by
  unfold markerAt; infer_instance

/-! ### Driver model

`repair_file` (lines 14-90) and the batch loop of `main` (lines 150-163).
Exceptions raised by file operations are modelled as explicit `Except`
values carried by a `FileSys` record describing one target file; the
`try`/`except` blocks of the code become matches on those values, so that
every per-file outcome is a value of `Outcome` and no error escapes. -/

/-- A Python exception from a file operation: `PermissionError` is caught
separately from every other `Exception` (lines 82-90). -/
inductive PyErr where
  | permission
  | other
deriving DecidableEq

/-- The distinct per-file outcomes of `repair_file`: `ok` is the `True`
return; each error branch prints its own diagnostic and returns `False`. -/
inductive Outcome where
  | ok
  | errMissing
  | errNotFile
  | errNotVenv
  | errPermission
  | errOther
deriving DecidableEq

/-- The facts about one target file that `repair_file` consults: existence,
regular-file check, the result of reading it, the result of the write-back,
and the result of the best-effort backup write (whose failure is only a
warning, lines 59-65). -/
structure FileSys where
  pathExists : Bool
  pathIsFile : Bool
  readResult : Except PyErr (List Nat)
  writeResult : Except PyErr Unit
  backupResult : Except PyErr Unit

/-- The argument values `repair_file` receives from `main`:
`base_interpreter` already UTF-8 encoded (line 69), `print_only`, `backup`. -/
structure Args where
  baseInterpreter : List Nat
  printOnly : Bool
  backup : Bool
deriving DecidableEq

/-- `repair_file`: the per-file outcome together with the bytes written
back, when a write happens.  The backup result is deliberately ignored:
its failure only prints a warning (lines 64-65) and patching proceeds. -/
def repairFile (fs : FileSys) (args : Args) : Outcome × Option (List Nat) :=
  if fs.pathExists = false then (.errMissing, none)
  else if fs.pathIsFile = false then (.errNotFile, none)
  else
    match fs.readResult with
    | .error .permission => (.errPermission, none)
    | .error .other => (.errOther, none)
    | .ok content =>
      match locate content with
      | none => (.errNotVenv, none)
      | some (s, e) =>
        if args.printOnly then (.ok, none)
        else
          match fs.writeResult with
          | .error .permission => (.errPermission, none)
          | .error .other => (.errOther, none)
          | .ok _ => (.ok, some (patch content s e args.baseInterpreter))

/-- Whether `repair_file` returned `True` for this file (line 154). -/
def repairOk (fs : FileSys) (args : Args) : Bool :=
  decide ((repairFile fs args).1 = Outcome.ok)

/-- The loop of `main` (lines 153-155): one boolean per requested file. -/
def runBatch (files : List FileSys) (args : Args) : List Bool :=
  files.map (fun fs => repairOk fs args)

/-- `success_count` (lines 150-155). -/
def successCount (rs : List Bool) : Nat := (rs.filter (fun b => b)).length

/-- The process exit status chosen by `main` (lines 162-163):
`sys.exit(1)` when `success_count < total_count`, otherwise a normal
return, i.e. exit status 0. -/
def exitCode (rs : List Bool) : Nat :=
  if successCount rs < rs.length then 1 else 0

/-! ### Run-length lemmas -/

theorem runLen_le_length (l : List Nat) : runLen l ≤ l.length := by
  induction l with
  | nil => simp [runLen]
  | cons b bs ih =>
    simp only [runLen, List.length_cons]
    split
    · exact Nat.zero_le _
    · exact Nat.succ_le_succ ih

theorem crlfLen_le_length (l : List Nat) : crlfLen l ≤ l.length := by
  induction l with
  | nil => simp [crlfLen]
  | cons b bs ih =>
    simp only [crlfLen, List.length_cons]
    split
    · exact Nat.succ_le_succ ih
    · exact Nat.zero_le _

theorem runLen_getElem {l : List Nat} {k : Nat} (h : k < runLen l) :
    ∃ b, l[k]? = some b ∧ isCRLF b = false := by
  induction l generalizing k with
  | nil => simp [runLen] at h
  | cons b bs ih =>
    by_cases hb : isCRLF b = true
    · simp [runLen, hb] at h
    · rw [Bool.not_eq_true] at hb
      simp only [runLen, hb] at h
      simp only [Bool.false_eq_true, if_false] at h
      match k with
      | 0 => exact ⟨b, List.getElem?_cons_zero, hb⟩
      | k + 1 =>
        obtain ⟨d, hd1, hd2⟩ := ih (Nat.lt_of_succ_lt_succ h)
        exact ⟨d, by simpa using hd1, hd2⟩

theorem runLen_boundary (l : List Nat) :
    runLen l = l.length ∨ ∃ b, l[runLen l]? = some b ∧ isCRLF b = true := by
  induction l with
  | nil => left; rfl
  | cons b bs ih =>
    by_cases hb : isCRLF b = true
    · right
      refine ⟨b, ?_, hb⟩
      simp [runLen, hb]
    · rw [Bool.not_eq_true] at hb
      rcases ih with h1 | ⟨c, hc1, hc2⟩
      · left; simp [runLen, hb, h1]
      · right; exact ⟨c, by simp [runLen, hb, hc1], hc2⟩

theorem crlfLen_getElem {l : List Nat} {k : Nat} (h : k < crlfLen l) :
    ∃ b, l[k]? = some b ∧ isCRLF b = true := by
  induction l generalizing k with
  | nil => simp [crlfLen] at h
  | cons b bs ih =>
    by_cases hb : isCRLF b = true
    · simp only [crlfLen, hb, if_true] at h
      match k with
      | 0 => exact ⟨b, List.getElem?_cons_zero, hb⟩
      | k + 1 =>
        obtain ⟨d, hd1, hd2⟩ := ih (Nat.lt_of_succ_lt_succ h)
        exact ⟨d, by simpa using hd1, hd2⟩
    · rw [Bool.not_eq_true] at hb
      simp [crlfLen, hb] at h

theorem runLen_append {P : List Nat} (hP : ∀ b ∈ P, isCRLF b = false) (l : List Nat) :
    runLen (P ++ l) = P.length + runLen l := by
  induction P with
  | nil => simp
  | cons b bs ih =>
    have hb : isCRLF b = false := hP b (List.mem_cons_self b bs)
    have ih' := ih (fun c hc => hP c (List.mem_cons_of_mem b hc))
    simp [runLen, hb, ih']
    omega

theorem runLen_cons_crlf {b : Nat} (hb : isCRLF b = true) (l : List Nat) :
    runLen (b :: l) = 0 := by
  simp [runLen, hb]

theorem crlfLen_append {C : List Nat} (hC : ∀ b ∈ C, isCRLF b = true) (l : List Nat) :
    crlfLen (C ++ l) = C.length + crlfLen l := by
  induction C with
  | nil => simp
  | cons b bs ih =>
    have hb : isCRLF b = true := hC b (List.mem_cons_self b bs)
    have ih' := ih (fun c hc => hC c (List.mem_cons_of_mem b hc))
    simp [crlfLen, hb, ih']
    omega

theorem crlfLen_cons_of {b : Nat} (hb : isCRLF b = false) (l : List Nat) :
    crlfLen (b :: l) = 0 := by
  simp [crlfLen, hb]

theorem startsWithPK_iff (l : List Nat) :
    startsWithPK l = true ↔ l[0]? = some 80 ∧ l[1]? = some 75 := by
  match l with
  | [] => simp [startsWithPK]
  | [a] => simp [startsWithPK]
  | a :: b :: t => simp [startsWithPK, and_comm]

theorem runLen_eq_zero_of_head {l : List Nat} {s : Nat} {b : Nat}
    (h : l[s]? = some b) (hb : isCRLF b = true) : runLen (l.drop s) = 0 := by
  have hlt : s < l.length := (List.getElem?_eq_some.mp h).1
  rw [List.drop_eq_getElem_cons hlt]
  have hget : l[s] = b := by
    have h2 := List.getElem?_eq_getElem hlt
    rw [h2] at h
    exact Option.some.inj h
  rw [hget]
  exact runLen_cons_crlf hb _

/-! ### Soundness, minimality and completeness of the two searches -/

theorem findPrimary_sound {l : List Nat} {s e : Nat} (h : findPrimary l = some (s, e)) :
    ∃ q, s = q + 2 ∧ markerAt l q ∧ primaryCond (l.drop s) = true ∧
      e = s + runLen (l.drop s) := by
  induction l generalizing s e with
  | nil => simp [findPrimary] at h
  | cons a l ih =>
    match l with
    | [] => simp [findPrimary] at h
    | b :: rest =>
      rw [findPrimary] at h
      by_cases hc : (a == 35 && b == 33 && primaryCond rest) = true
      · rw [if_pos hc] at h
        simp only [Option.some.injEq, Prod.mk.injEq] at h
        obtain ⟨h1, h2⟩ := h
        simp only [Bool.and_eq_true, beq_iff_eq] at hc
        obtain ⟨⟨ha, hb⟩, hpc⟩ := hc
        refine ⟨0, by omega, ⟨?_, ?_⟩, ?_, ?_⟩
        · simp [ha]
        · simp [hb]
        · have hd : (a :: b :: rest).drop s = rest := by rw [← h1]; rfl
          rw [hd]; exact hpc
        · have hd : (a :: b :: rest).drop s = rest := by rw [← h1]; rfl
          rw [hd]; omega
      · rw [if_neg hc, Option.map_eq_some'] at h
        obtain ⟨⟨s', e'⟩, hfp, hpe⟩ := h
        simp only [Prod.mk.injEq] at hpe
        obtain ⟨hs, he⟩ := hpe
        obtain ⟨q', hq1, hq2, hq3, hq4⟩ := ih hfp
        refine ⟨q' + 1, by omega, ⟨by simpa using hq2.1, by simpa using hq2.2⟩, ?_, ?_⟩
        · have hd : (a :: b :: rest).drop s = (b :: rest).drop s' := by
            rw [← hs]; exact List.drop_succ_cons ..
          rw [hd]; exact hq3
        · have hd : (a :: b :: rest).drop s = (b :: rest).drop s' := by
            rw [← hs]; exact List.drop_succ_cons ..
          rw [hd]; omega

theorem findPrimary_min {l : List Nat} {s e : Nat} (h : findPrimary l = some (s, e)) :
    ∀ q, q + 2 < s → markerAt l q → primaryCond (l.drop (q + 2)) = false := by
  induction l generalizing s e with
  | nil => simp [findPrimary] at h
  | cons a l ih =>
    match l with
    | [] => simp [findPrimary] at h
    | b :: rest =>
      rw [findPrimary] at h
      by_cases hc : (a == 35 && b == 33 && primaryCond rest) = true
      · rw [if_pos hc] at h
        simp only [Option.some.injEq, Prod.mk.injEq] at h
        intro q hq _
        omega
      · rw [if_neg hc, Option.map_eq_some'] at h
        obtain ⟨⟨s', e'⟩, hfp, hpe⟩ := h
        simp only [Prod.mk.injEq] at hpe
        obtain ⟨hs, _⟩ := hpe
        intro q hq hm
        match q with
        | 0 =>
          have ha : a = 35 := by
            have := hm.1; simpa using this
          have hb : b = 33 := by
            have := hm.2; simpa using this
          have hpc : primaryCond rest = false := by
            by_contra hx
            rw [Bool.not_eq_false] at hx
            exact hc (by simp [ha, hb, hx])
          simpa using hpc
        | q'' + 1 =>
          have hm' : markerAt (b :: rest) q'' :=
            ⟨by simpa using hm.1, by simpa using hm.2⟩
          have hx := ih hfp q'' (by omega) hm'
          simpa [List.drop_succ_cons] using hx

theorem findPrimary_isSome {l : List Nat} {q : Nat} (hm : markerAt l q)
    (hp : primaryCond (l.drop (q + 2)) = true) :
    ∃ s e, findPrimary l = some (s, e) := by
  induction l generalizing q with
  | nil => have := hm.1; simp at this
  | cons a l ih =>
    match l with
    | [] =>
      have h2 := hm.2
      match q with
      | 0 => simp at h2
      | q + 1 => simp at h2
    | b :: rest =>
      by_cases hc : (a == 35 && b == 33 && primaryCond rest) = true
      · exact ⟨2, 2 + runLen rest, by rw [findPrimary, if_pos hc]⟩
      · match q with
        | 0 =>
          have ha : a = 35 := by have := hm.1; simpa using this
          have hb : b = 33 := by have := hm.2; simpa using this
          have hpc : primaryCond rest = true := by simpa using hp
          exact absurd (by simp [ha, hb, hpc]) hc
        | q'' + 1 =>
          have hm' : markerAt (b :: rest) q'' :=
            ⟨by simpa using hm.1, by simpa using hm.2⟩
          have hp' : primaryCond ((b :: rest).drop (q'' + 2)) = true := by
            simpa [List.drop_succ_cons] using hp
          obtain ⟨s, e, hsome⟩ := ih hm' hp'
          exact ⟨s + 1, e + 1, by rw [findPrimary, if_neg hc, hsome]; rfl⟩

theorem findSecondary_sound {l : List Nat} {s e : Nat} (h : findSecondary l = some (s, e)) :
    ∃ q, s = q + 2 ∧ markerAt l q ∧ e = s + runLen (l.drop s) := by
  induction l generalizing s e with
  | nil => simp [findSecondary] at h
  | cons a l ih =>
    match l with
    | [] => simp [findSecondary] at h
    | b :: rest =>
      rw [findSecondary] at h
      by_cases hc : (a == 35 && b == 33) = true
      · rw [if_pos hc] at h
        simp only [Option.some.injEq, Prod.mk.injEq] at h
        obtain ⟨h1, h2⟩ := h
        simp only [Bool.and_eq_true, beq_iff_eq] at hc
        obtain ⟨ha, hb⟩ := hc
        refine ⟨0, by omega, ⟨by simp [ha], by simp [hb]⟩, ?_⟩
        have hd : (a :: b :: rest).drop s = rest := by rw [← h1]; rfl
        rw [hd]; omega
      · rw [if_neg hc, Option.map_eq_some'] at h
        obtain ⟨⟨s', e'⟩, hfs, hpe⟩ := h
        simp only [Prod.mk.injEq] at hpe
        obtain ⟨hs, he⟩ := hpe
        obtain ⟨q', hq1, hq2, hq3⟩ := ih hfs
        refine ⟨q' + 1, by omega, ⟨by simpa using hq2.1, by simpa using hq2.2⟩, ?_⟩
        have hd : (a :: b :: rest).drop s = (b :: rest).drop s' := by
          rw [← hs]; exact List.drop_succ_cons ..
        rw [hd]; omega

theorem findSecondary_min {l : List Nat} {s e : Nat} (h : findSecondary l = some (s, e)) :
    ∀ q, q + 2 < s → ¬ markerAt l q := by
  induction l generalizing s e with
  | nil => simp [findSecondary] at h
  | cons a l ih =>
    match l with
    | [] => simp [findSecondary] at h
    | b :: rest =>
      rw [findSecondary] at h
      by_cases hc : (a == 35 && b == 33) = true
      · rw [if_pos hc] at h
        simp only [Option.some.injEq, Prod.mk.injEq] at h
        intro q hq _
        omega
      · rw [if_neg hc, Option.map_eq_some'] at h
        obtain ⟨⟨s', e'⟩, hfs, hpe⟩ := h
        simp only [Prod.mk.injEq] at hpe
        obtain ⟨hs, _⟩ := hpe
        intro q hq hm
        match q with
        | 0 =>
          have ha : a = 35 := by have := hm.1; simpa using this
          have hb : b = 33 := by have := hm.2; simpa using this
          exact hc (by simp [ha, hb])
        | q'' + 1 =>
          have hm' : markerAt (b :: rest) q'' :=
            ⟨by simpa using hm.1, by simpa using hm.2⟩
          exact ih hfs q'' (by omega) hm'

theorem findSecondary_isSome {l : List Nat} {q : Nat} (hm : markerAt l q) :
    ∃ s e, findSecondary l = some (s, e) := by
  induction l generalizing q with
  | nil => have := hm.1; simp at this
  | cons a l ih =>
    match l with
    | [] =>
      have h2 := hm.2
      match q with
      | 0 => simp at h2
      | q + 1 => simp at h2
    | b :: rest =>
      by_cases hc : (a == 35 && b == 33) = true
      · exact ⟨2, 2 + runLen rest, by rw [findSecondary, if_pos hc]⟩
      · match q with
        | 0 =>
          have ha : a = 35 := by have := hm.1; simpa using this
          have hb : b = 33 := by have := hm.2; simpa using this
          exact absurd (by simp [ha, hb]) hc
        | q'' + 1 =>
          have hm' : markerAt (b :: rest) q'' :=
            ⟨by simpa using hm.1, by simpa using hm.2⟩
          obtain ⟨s, e, hsome⟩ := ih hm'
          exact ⟨s + 1, e + 1, by rw [findSecondary, if_neg hc, hsome]; rfl⟩

/-! ### Lemmas about `locate` -/

theorem locate_primary {l : List Nat} {x : Nat × Nat} (h : findPrimary l = some x) :
    locate l = some x := by
  unfold locate
  rw [h]

theorem locate_sound {l : List Nat} {s e : Nat} (h : locate l = some (s, e)) :
    ∃ q, s = q + 2 ∧ markerAt l q ∧ e = s + runLen (l.drop s) := by
  unfold locate at h
  cases hfp : findPrimary l with
  | some p =>
    rw [hfp] at h
    have hfp2 : findPrimary l = some (s, e) := by rw [hfp]; exact h
    obtain ⟨q, h1, h2, _, h4⟩ := findPrimary_sound hfp2
    exact ⟨q, h1, h2, h4⟩
  | none =>
    rw [hfp] at h
    exact findSecondary_sound h

theorem markerAt_lt_length {l : List Nat} {q : Nat} (hm : markerAt l q) :
    q + 2 ≤ l.length := by
  have := (List.getElem?_eq_some.mp hm.2).1
  omega

theorem no_marker_of_bounded {l : List Nat}
    (h : ∀ q, q < l.length → ¬ markerAt l q) : ∀ q, ¬ markerAt l q := by
  intro q hm
  have hlt := markerAt_lt_length hm
  exact h q (by omega) hm

theorem locate_valid {l : List Nat} {s e : Nat} (h : locate l = some (s, e)) :
    2 ≤ s ∧ s ≤ e ∧ e ≤ l.length := by
  obtain ⟨q, hq, hm, he⟩ := locate_sound h
  have h1 := markerAt_lt_length hm
  have h2 := runLen_le_length (l.drop s)
  rw [List.length_drop] at h2
  omega

theorem locate_none_iff (l : List Nat) :
    locate l = none ↔ ∀ q, ¬ markerAt l q := by
  constructor
  · intro h q hm
    unfold locate at h
    cases hfp : findPrimary l with
    | some p => rw [hfp] at h; simp at h
    | none =>
      rw [hfp] at h
      obtain ⟨s, e, hs⟩ := findSecondary_isSome hm
      rw [hs] at h
      simp at h
  · intro h
    unfold locate
    cases hfp : findPrimary l with
    | some p =>
      obtain ⟨s, e⟩ := p
      obtain ⟨q, _, hm, _, _⟩ := findPrimary_sound hfp
      exact absurd hm (h q)
    | none =>
      cases hfs : findSecondary l with
      | some p =>
        obtain ⟨s, e⟩ := p
        obtain ⟨q, _, hm, _⟩ := findSecondary_sound hfs
        exact absurd hm (h q)
      | none => rfl

/-! ### The claims -/

/-- C1: for every byte sequence containing a contiguous occurrence
`#!` ++ P ++ crl ++ `PK` — P a run of non-CR/LF bytes, crl a non-empty run
of CR/LF bytes — the primary search succeeds and `Locate` returns its
result: the span `[s, e)` sits directly after a `#!` marker, covers
exactly a maximal non-CR/LF run (every byte in the span is non-CR/LF, and
the run is followed by a positive run of CR/LF bytes and then the `PK`
signature), excluding the marker, the CR/LF run and `PK`. -/
theorem C1_primary_match {pre P crl rest : List Nat}
    (hP : ∀ b ∈ P, isCRLF b = false) (hcrl : ∀ b ∈ crl, isCRLF b = true)
    (hne : crl ≠ []) {content : List Nat}
    (hc : content = pre ++ 35 :: 33 :: (P ++ crl ++ 80 :: 75 :: rest)) :
    ∃ s e, findPrimary content = some (s, e) ∧ locate content = some (s, e) ∧
      (∃ q, s = q + 2 ∧ markerAt content q) ∧
      e = s + runLen (content.drop s) ∧
      (∀ k, k < e - s → ∃ b, content[s + k]? = some b ∧ isCRLF b = false) ∧
      (∃ m, 0 < m ∧ (∀ k, k < m → ∃ b, content[e + k]? = some b ∧ isCRLF b = true) ∧
        content[e + m]? = some 80 ∧ content[e + m + 1]? = some 75) := by
  obtain ⟨c0, crl2, hcrl2⟩ := List.exists_cons_of_ne_nil hne
  have hpc : primaryCond (P ++ crl ++ 80 :: 75 :: rest) = true := by
    rw [List.append_assoc]
    have hrun : runLen (P ++ (crl ++ 80 :: 75 :: rest)) = P.length := by
      rw [runLen_append hP, hcrl2, List.cons_append,
        runLen_cons_crlf (hcrl c0 (by rw [hcrl2]; exact List.mem_cons_self ..))]
      omega
    have hcl : crlfLen (crl ++ 80 :: 75 :: rest) = crl.length := by
      rw [crlfLen_append hcrl, crlfLen_cons_of (by decide)]
      omega
    have hdrop2 : (P ++ (crl ++ 80 :: 75 :: rest)).drop P.length =
        crl ++ 80 :: 75 :: rest := List.drop_left ..
    have hdrop3 : (P ++ (crl ++ 80 :: 75 :: rest)).drop (P.length + crl.length) =
        80 :: 75 :: rest := by
      rw [← List.append_assoc, ← List.length_append]
      exact List.drop_left ..
    unfold primaryCond
    rw [hrun, hdrop2, hcl, hdrop3]
    have hlen : crl.length ≠ 0 := by
      rw [hcrl2]; simp
    simp [startsWithPK, hlen]
  have hm0 : markerAt content pre.length := by
    subst hc
    constructor
    · rw [List.getElem?_append_right (le_refl _)]
      simp
    · rw [List.getElem?_append_right (by omega)]
      simp
  have hp0 : primaryCond (content.drop (pre.length + 2)) = true := by
    subst hc
    rw [List.drop_append 2]
    exact hpc
  obtain ⟨s, e, hsome⟩ := findPrimary_isSome hm0 hp0
  obtain ⟨q, hq, hm, hpc2, he⟩ := findPrimary_sound hsome
  refine ⟨s, e, hsome, locate_primary hsome, ⟨q, hq, hm⟩, he, ?_, ?_⟩
  · intro k hk
    have hk2 : k < runLen (content.drop s) := by omega
    obtain ⟨b, hb1, hb2⟩ := runLen_getElem hk2
    rw [List.getElem?_drop] at hb1
    exact ⟨b, hb1, hb2⟩
  · unfold primaryCond at hpc2
    simp only [Bool.and_eq_true, bne_iff_ne, Ne] at hpc2
    obtain ⟨hm1, hm2⟩ := hpc2
    refine ⟨crlfLen ((content.drop s).drop (runLen (content.drop s))),
      by omega, ?_, ?_, ?_⟩
    · intro k hk
      obtain ⟨b, hb1, hb2⟩ := crlfLen_getElem hk
      refine ⟨b, ?_, hb2⟩
      rw [List.getElem?_drop, List.getElem?_drop] at hb1
      have hidx : e + k = s + (runLen (content.drop s) + k) := by omega
      rw [hidx]
      exact hb1
    · have h80 := ((startsWithPK_iff _).mp hm2).1
      rw [List.getElem?_drop, List.getElem?_drop] at h80
      have hidx : e + crlfLen ((content.drop s).drop (runLen (content.drop s))) =
          s + (runLen (content.drop s) +
            crlfLen ((content.drop s).drop (runLen (content.drop s))) + 0) := by omega
      rw [hidx]
      exact h80
    · have h75 := ((startsWithPK_iff _).mp hm2).2
      rw [List.getElem?_drop, List.getElem?_drop] at h75
      have hidx : e + crlfLen ((content.drop s).drop (runLen (content.drop s))) + 1 =
          s + (runLen (content.drop s) +
            crlfLen ((content.drop s).drop (runLen (content.drop s))) + 1) := by omega
      rw [hidx]
      exact h75

/-- C1 witness: the primary match on `b"#!a\r\nPK"`. -/
theorem C1_primary_match_witness :
    ∃ s e, findPrimary [35, 33, 97, 13, 10, 80, 75] = some (s, e) ∧
      locate [35, 33, 97, 13, 10, 80, 75] = some (s, e) ∧
      (∃ q, s = q + 2 ∧ markerAt [35, 33, 97, 13, 10, 80, 75] q) ∧
      e = s + runLen (([35, 33, 97, 13, 10, 80, 75] : List Nat).drop s) ∧
      (∀ k, k < e - s →
        ∃ b, ([35, 33, 97, 13, 10, 80, 75] : List Nat)[s + k]? = some b ∧
          isCRLF b = false) ∧
      (∃ m, 0 < m ∧
        (∀ k, k < m →
          ∃ b, ([35, 33, 97, 13, 10, 80, 75] : List Nat)[e + k]? = some b ∧
            isCRLF b = true) ∧
        ([35, 33, 97, 13, 10, 80, 75] : List Nat)[e + m]? = some 80 ∧
        ([35, 33, 97, 13, 10, 80, 75] : List Nat)[e + m + 1]? = some 75) :=
  @C1_primary_match [] [97] [13, 10] [] (by decide) (by decide) (by decide)
    [35, 33, 97, 13, 10, 80, 75] rfl

/-- C3: when the primary search finds no match anywhere but a `#!` marker
occurs, `Locate` falls back to the secondary search and returns the span
of the maximal run of non-CR/LF bytes directly after a `#!` marker, ending
at the first CR/LF byte at or after the start, or at end of data; and the
secondary result is only used when the primary search found no match — a
primary match is always returned as is. -/
theorem C3_secondary_fallback {content : List Nat}
    (hnone : findPrimary content = none) {q0 : Nat} (hm0 : markerAt content q0) :
    (∃ s e, locate content = some (s, e) ∧ findSecondary content = some (s, e) ∧
      (∃ q, s = q + 2 ∧ markerAt content q) ∧
      e = s + runLen (content.drop s) ∧
      (∀ k, k < e - s → ∃ b, content[s + k]? = some b ∧ isCRLF b = false) ∧
      (e = content.length ∨ ∃ b, content[e]? = some b ∧ isCRLF b = true)) ∧
    (∀ l : List Nat, ∀ x, findPrimary l = some x → locate l = some x) := by
  constructor
  · obtain ⟨s, e, hs⟩ := findSecondary_isSome hm0
    have hloc : locate content = some (s, e) := by
      unfold locate
      rw [hnone]
      exact hs
    obtain ⟨q, hq, hm, he⟩ := findSecondary_sound hs
    have hval := locate_valid hloc
    refine ⟨s, e, hloc, hs, ⟨q, hq, hm⟩, he, ?_, ?_⟩
    · intro k hk
      have hk2 : k < runLen (content.drop s) := by omega
      obtain ⟨b, hb1, hb2⟩ := runLen_getElem hk2
      rw [List.getElem?_drop] at hb1
      exact ⟨b, hb1, hb2⟩
    · rcases runLen_boundary (content.drop s) with hb | ⟨b, hb1, hb2⟩
      · left
        rw [List.length_drop] at hb
        omega
      · right
        refine ⟨b, ?_, hb2⟩
        rw [List.getElem?_drop] at hb1
        rw [he]
        exact hb1
  · intro l x h
    exact locate_primary h

/-- C3 witness: on `b"#!a"` the primary search fails, and the secondary
match covers the run after the marker up to end of data. -/
theorem C3_secondary_fallback_witness :
    (∃ s e, locate [35, 33, 97] = some (s, e) ∧
      findSecondary [35, 33, 97] = some (s, e) ∧
      (∃ q, s = q + 2 ∧ markerAt [35, 33, 97] q) ∧
      e = s + runLen (([35, 33, 97] : List Nat).drop s) ∧
      (∀ k, k < e - s →
        ∃ b, ([35, 33, 97] : List Nat)[s + k]? = some b ∧ isCRLF b = false) ∧
      (e = ([35, 33, 97] : List Nat).length ∨
        ∃ b, ([35, 33, 97] : List Nat)[e]? = some b ∧ isCRLF b = true)) ∧
    (∀ l : List Nat, ∀ x, findPrimary l = some x → locate l = some x) :=
  @C3_secondary_fallback [35, 33, 97] (by decide) 0 (by decide)

/-- C2: for every input byte sequence, every valid span
(`start ≤ end ≤ len`), and every replacement, `Patch` returns exactly
`bytes[:start] ++ replacement ++ bytes[end:]`; it is a pure total Lean
function (hence always succeeds and never mutates its input); every byte
below `start` is unchanged at its offset, every byte at or beyond `end`
reappears, in order, right after the replacement, and every suffix of the
input starting at or after `end` — in particular the archive payload from
the `PK` marker onward when the primary pattern matched, since the match
places that marker at or after `end` — is preserved verbatim. -/
theorem C2_patch_frame (content r : List Nat) (s e : Nat) (h1 : s ≤ e)
    (h2 : e ≤ content.length) :
    patch content s e r = content.take s ++ r ++ content.drop e ∧
    (patch content s e r).length = s + r.length + (content.length - e) ∧
    (∀ k, k < s → (patch content s e r)[k]? = content[k]?) ∧
    (∀ k, (patch content s e r)[s + r.length + k]? = content[e + k]?) ∧
    (∀ pk, e ≤ pk →
      (patch content s e r).drop (s + r.length + (pk - e)) = content.drop pk) := by
  have hlen_take : (content.take s).length = s := by
    simp [List.length_take]
    omega
  refine ⟨rfl, ?_, ?_, ?_, ?_⟩
  · simp [patch, List.length_append, List.length_drop, hlen_take]
    omega
  · intro k hk
    show ((content.take s ++ r) ++ content.drop e)[k]? = content[k]?
    rw [List.getElem?_append_left (by simp [hlen_take]; omega),
      List.getElem?_append_left (by omega : k < (content.take s).length),
      List.getElem?_take_of_lt hk]
  · intro k
    show ((content.take s ++ r) ++ content.drop e)[s + r.length + k]? = content[e + k]?
    have hlen2 : (content.take s ++ r).length = s + r.length := by
      simp [List.length_append, hlen_take]
    rw [List.getElem?_append_right (by omega)]
    rw [hlen2]
    have hidx : s + r.length + k - (s + r.length) = k := by omega
    rw [hidx, List.getElem?_drop]
  · intro pk hpk
    show ((content.take s ++ r) ++ content.drop e).drop (s + r.length + (pk - e)) =
      content.drop pk
    have hlen2 : (content.take s ++ r).length = s + r.length := by
      simp [List.length_append, hlen_take]
    rw [← hlen2, List.drop_append, List.drop_drop]
    congr 1
    omega

/-- C2 witness: the frame theorem applied to the concrete scenario of §8,
`b"#!C:/o\r\nPK"` patched at span `(2, 6)` with replacement `b"C:/n"`. -/
theorem C2_patch_frame_witness :
    (2 : Nat) ≤ 6 ∧ (6 : Nat) ≤ ([35, 33, 67, 58, 47, 111, 13, 10, 80, 75] : List Nat).length ∧
    (patch [35, 33, 67, 58, 47, 111, 13, 10, 80, 75] 2 6 [67, 58, 47, 110] =
        ([35, 33, 67, 58, 47, 111, 13, 10, 80, 75] : List Nat).take 2 ++ [67, 58, 47, 110] ++
          ([35, 33, 67, 58, 47, 111, 13, 10, 80, 75] : List Nat).drop 6 ∧
      (patch [35, 33, 67, 58, 47, 111, 13, 10, 80, 75] 2 6 [67, 58, 47, 110]).length =
        2 + 4 + (10 - 6) ∧
      (∀ k, k < 2 →
        (patch [35, 33, 67, 58, 47, 111, 13, 10, 80, 75] 2 6 [67, 58, 47, 110])[k]? =
          ([35, 33, 67, 58, 47, 111, 13, 10, 80, 75] : List Nat)[k]?) ∧
      (∀ k, (patch [35, 33, 67, 58, 47, 111, 13, 10, 80, 75] 2 6 [67, 58, 47, 110])[2 + 4 + k]? =
          ([35, 33, 67, 58, 47, 111, 13, 10, 80, 75] : List Nat)[6 + k]?) ∧
      (∀ pk, 6 ≤ pk →
        (patch [35, 33, 67, 58, 47, 111, 13, 10, 80, 75] 2 6 [67, 58, 47, 110]).drop
            (2 + 4 + (pk - 6)) =
          ([35, 33, 67, 58, 47, 111, 13, 10, 80, 75] : List Nat).drop pk)) :=
  ⟨by decide, by decide,
    C2_patch_frame [35, 33, 67, 58, 47, 111, 13, 10, 80, 75] [67, 58, 47, 110] 2 6
      (by decide) (by decide)⟩

/-- C5: patching the span returned by `Locate` with the field's own bytes
(`content[start:end]`, i.e. `(content.drop start).take (end - start)`) is
a no-op. -/
theorem C5_roundtrip {content : List Nat} {s e : Nat} (h : locate content = some (s, e)) :
    patch content s e ((content.drop s).take (e - s)) = content := by
  obtain ⟨_, h1, h2⟩ := locate_valid h
  show content.take s ++ (content.drop s).take (e - s) ++ content.drop e = content
  have hs : content.take s ++ (content.drop s).take (e - s) = content.take e := by
    rw [← List.take_add]
    congr 1
    omega
  rw [hs, List.take_append_drop]

/-- C5 witness: round trip on `b"#!a\r\nPK"`, where `Locate` returns span
`(2, 3)` and the field bytes are `[97]`. -/
theorem C5_roundtrip_witness :
    locate [35, 33, 97, 13, 10, 80, 75] = some (2, 3) ∧
    patch [35, 33, 97, 13, 10, 80, 75] 2 3
        ((([35, 33, 97, 13, 10, 80, 75] : List Nat).drop 2).take (3 - 2)) =
      [35, 33, 97, 13, 10, 80, 75] :=
  ⟨by decide, C5_roundtrip (by decide)⟩

/-- C6: applying `Patch` a second time with the same replacement, at the
span `(start, start + len replacement)` that identifies the replacement's
position inside the first output (the first output indeed carries the
replacement exactly there), leaves the bytes unchanged. -/
theorem C6_idempotent (content r : List Nat) (s e : Nat) (h1 : s ≤ e)
    (h2 : e ≤ content.length) :
    ((patch content s e r).drop s).take ((s + r.length) - s) = r ∧
    patch (patch content s e r) s (s + r.length) r = patch content s e r := by
  have hlen_take : (content.take s).length = s := by
    simp [List.length_take]
    omega
  have hdrop : (patch content s e r).drop s = r ++ content.drop e := by
    show ((content.take s ++ r) ++ content.drop e).drop s = r ++ content.drop e
    rw [List.append_assoc, List.drop_left' hlen_take]
  constructor
  · rw [hdrop]
    have hidx : s + r.length - s = r.length := by omega
    rw [hidx]
    exact List.take_left' rfl
  · show (patch content s e r).take s ++ r ++ (patch content s e r).drop (s + r.length) =
      patch content s e r
    have htake : (patch content s e r).take s = content.take s := by
      show ((content.take s ++ r) ++ content.drop e).take s = content.take s
      rw [List.append_assoc, List.take_left' hlen_take]
    have hdrop2 : (patch content s e r).drop (s + r.length) = content.drop e := by
      show ((content.take s ++ r) ++ content.drop e).drop (s + r.length) = content.drop e
      have hlen2 : (content.take s ++ r).length = s + r.length := by
        simp [List.length_append, hlen_take]
      rw [List.drop_left' hlen2]
    rw [htake, hdrop2]
    rfl

/-- C6 witness: idempotence on `b"#!old\r\nPK"` with span `(2, 5)` and
replacement `b"new!"`. -/
theorem C6_idempotent_witness :
    ((patch [35, 33, 111, 108, 100, 13, 10, 80, 75] 2 5 [110, 101, 119, 33]).drop 2).take
        ((2 + 4) - 2) = [110, 101, 119, 33] ∧
    patch (patch [35, 33, 111, 108, 100, 13, 10, 80, 75] 2 5 [110, 101, 119, 33]) 2 (2 + 4)
        [110, 101, 119, 33] =
      patch [35, 33, 111, 108, 100, 13, 10, 80, 75] 2 5 [110, 101, 119, 33] :=
  C6_idempotent [35, 33, 111, 108, 100, 13, 10, 80, 75] [110, 101, 119, 33] 2 5
    (by decide) (by decide)

/-- C7: when the matched `#!` marker is immediately followed by a line
break (byte 13 or 10) — or stands at the very end of the data — the match
returned by `Locate` is a valid empty field with `start = end`, and
patching at that span inserts the replacement at the zero-width position:
the result is `bytes[:start] ++ replacement ++ bytes[start:]`.  (A `PK`
boundary can never immediately follow the marker in a primary match, since
the primary pattern demands at least one CR/LF byte before `PK`, so that
case of the claim is vacuous.) -/
theorem C7_empty_field {content : List Nat} {s e : Nat}
    (h : locate content = some (s, e))
    (hbr : content[s]? = some 13 ∨ content[s]? = some 10 ∨ s = content.length) :
    s = e ∧ ∀ r, patch content s e r = content.take s ++ r ++ content.drop s := by
  obtain ⟨q, hq, hm, he⟩ := locate_sound h
  have hrun : runLen (content.drop s) = 0 := by
    rcases hbr with hb | hb | hb
    · exact runLen_eq_zero_of_head hb (by decide)
    · exact runLen_eq_zero_of_head hb (by decide)
    · rw [List.drop_eq_nil_of_le (by omega)]
      rfl
  have hse : s = e := by omega
  exact ⟨hse, fun r => by rw [patch, ← hse]⟩

/-- C7 witness: on `b"#!\r\nPK"` the marker is immediately followed by a
carriage return; `Locate` returns the empty span `(2, 2)` and patching
there is pure insertion. -/
theorem C7_empty_field_witness :
    locate [35, 33, 13, 10, 80, 75] = some (2, 2) ∧
    (([35, 33, 13, 10, 80, 75] : List Nat)[2]? = some 13 ∨
      ([35, 33, 13, 10, 80, 75] : List Nat)[2]? = some 10 ∨
      2 = ([35, 33, 13, 10, 80, 75] : List Nat).length) ∧
    (2 = 2 ∧ ∀ r, patch [35, 33, 13, 10, 80, 75] 2 2 r =
      ([35, 33, 13, 10, 80, 75] : List Nat).take 2 ++ r ++
        ([35, 33, 13, 10, 80, 75] : List Nat).drop 2) :=
  ⟨by decide, by decide, C7_empty_field (by decide) (by decide)⟩

/-- C4 as stated fails on the code: on `b"#!a\nb#!c\r\nPK"` the first
occurrence of the `#!` marker is at offset 0, but `Locate` (through the
primary search) returns the span `(7, 8)`, anchored at the second marker
at offset 5 — the span does not start at `0 + 2`, so the first occurrence
of the marker does not anchor the match. -/
theorem C4_counterexample :
    markerAt [35, 33, 97, 10, 98, 35, 33, 99, 13, 10, 80, 75] 0 ∧
    locate [35, 33, 97, 10, 98, 35, 33, 99, 13, 10, 80, 75] = some (7, 8) ∧
    (7 : Nat) ≠ 0 + 2 := by
  decide

/-- C4 amended: each search anchors at the leftmost `#!` marker at which
its own pattern matches — the primary search at the first marker whose
primary condition holds (every earlier marker fails the condition), the
secondary search at the first marker outright — and `Locate` produces
exactly one match per file. -/
theorem C4_leftmost_own_pattern {content : List Nat} {s e : Nat}
    (h : locate content = some (s, e)) :
    (∃ q, s = q + 2 ∧ markerAt content q) ∧
    (∀ p, findPrimary content = some p → p = (s, e) ∧
      primaryCond (content.drop s) = true ∧
      (∀ q, q + 2 < s → markerAt content q →
        primaryCond (content.drop (q + 2)) = false)) ∧
    (findPrimary content = none → findSecondary content = some (s, e) ∧
      (∀ q, q + 2 < s → ¬ markerAt content q)) ∧
    (∀ x, locate content = some x → x = (s, e)) := by
  obtain ⟨q, hq, hm, _⟩ := locate_sound h
  refine ⟨⟨q, hq, hm⟩, ?_, ?_, ?_⟩
  · intro p hp
    have hps : locate content = some p := locate_primary hp
    have hpe : p = (s, e) := by
      rw [h] at hps
      exact (Option.some.inj hps).symm
    have hp2 : findPrimary content = some (s, e) := by rw [hp, hpe]
    obtain ⟨_, _, _, hpc, _⟩ := findPrimary_sound hp2
    exact ⟨hpe, hpc, findPrimary_min hp2⟩
  · intro hn
    have hs : findSecondary content = some (s, e) := by
      have hl : locate content = findSecondary content := by
        unfold locate
        rw [hn]
      rw [← hl, h]
    exact ⟨hs, findSecondary_min hs⟩
  · intro x hx
    rw [h] at hx
    exact (Option.some.inj hx).symm

/-- C4 amended witness: on `b"#!a\r\nPK"` the match span `(2, 3)` sits
directly after a marker. -/
theorem C4_leftmost_own_pattern_witness :
    ∃ q, (2 : Nat) = q + 2 ∧ markerAt [35, 33, 97, 13, 10, 80, 75] q :=
  (@C4_leftmost_own_pattern [35, 33, 97, 13, 10, 80, 75] 2 3 (by decide)).1

/-- C8: for byte sequences with no `#!` anywhere, `Locate` returns
NotFound (`none`); `repair_file` on such a readable regular file reports
it as not a venv executable — a normal per-file outcome value, distinct
from the success outcome and from each I/O-error outcome, so the caller
can tell them apart and continue with the next file. -/
theorem C8_no_marker_notfound {content : List Nat}
    (h : ∀ q, ¬ markerAt content q) :
    locate content = none ∧
    (∀ w bu args, (repairFile ⟨true, true, .ok content, w, bu⟩ args).1 =
      Outcome.errNotVenv) ∧
    (Outcome.errNotVenv ≠ Outcome.ok ∧ Outcome.errNotVenv ≠ Outcome.errMissing ∧
      Outcome.errNotVenv ≠ Outcome.errNotFile ∧
      Outcome.errNotVenv ≠ Outcome.errPermission ∧
      Outcome.errNotVenv ≠ Outcome.errOther) := by
  have hn : locate content = none := (locate_none_iff content).mpr h
  refine ⟨hn, ?_, by decide, by decide, by decide, by decide, by decide⟩
  intro w bu args
  simp [repairFile, hn]

/-- C8 witness: the bytes `b"abc"` contain no marker. -/
theorem C8_no_marker_notfound_witness :
    locate [97, 98, 99] = none ∧
    (∀ w bu args, (repairFile ⟨true, true, .ok [97, 98, 99], w, bu⟩ args).1 =
      Outcome.errNotVenv) ∧
    (Outcome.errNotVenv ≠ Outcome.ok ∧ Outcome.errNotVenv ≠ Outcome.errMissing ∧
      Outcome.errNotVenv ≠ Outcome.errNotFile ∧
      Outcome.errNotVenv ≠ Outcome.errPermission ∧
      Outcome.errNotVenv ≠ Outcome.errOther) :=
  C8_no_marker_notfound (no_marker_of_bounded (by decide))

/-! ### Batch lemmas for the exit status -/

theorem successCount_eq_countP (rs : List Bool) :
    successCount rs = rs.countP (fun b => b) := by
  unfold successCount
  exact (List.countP_eq_length_filter _ _).symm

theorem exitCode_zero_iff (rs : List Bool) :
    exitCode rs = 0 ↔ ∀ b ∈ rs, b = true := by
  have h1 : rs.countP (fun b => b) ≤ rs.length := List.countP_le_length _
  have h2 : exitCode rs = 0 ↔ successCount rs = rs.length := by
    rw [successCount_eq_countP]
    unfold exitCode
    rw [successCount_eq_countP]
    split
    · next hlt =>
      constructor
      · intro hx
        exact absurd hx one_ne_zero
      · intro hx
        omega
    · next hlt =>
      constructor
      · intro _
        omega
      · intro _
        rfl
  rw [h2, successCount_eq_countP, List.countP_eq_length]

/-- C9: batch error containment and exit status.  Every requested file
yields exactly one boolean result (the loop never aborts); the exit status
is nonzero iff at least one requested file failed and zero iff all
succeeded; and each per-file error condition — missing target, not a
regular file, permission denied or other I/O failure on read, pattern not
found — is converted into its per-file failure outcome by the total
function `repairFile`, while a failing backup write changes nothing. -/
theorem C9_batch_exit (files : List FileSys) (args : Args) :
    (runBatch files args).length = files.length ∧
    (exitCode (runBatch files args) ≠ 0 ↔
      ∃ fs ∈ files, (repairFile fs args).1 ≠ Outcome.ok) ∧
    (exitCode (runBatch files args) = 0 ↔
      ∀ fs ∈ files, (repairFile fs args).1 = Outcome.ok) ∧
    (∀ fs : FileSys, fs.pathExists = false →
      (repairFile fs args).1 = Outcome.errMissing) ∧
    (∀ fs : FileSys, fs.pathExists = true → fs.pathIsFile = false →
      (repairFile fs args).1 = Outcome.errNotFile) ∧
    (∀ fs : FileSys, fs.pathExists = true → fs.pathIsFile = true →
      fs.readResult = .error .permission →
      (repairFile fs args).1 = Outcome.errPermission) ∧
    (∀ fs : FileSys, fs.pathExists = true → fs.pathIsFile = true →
      fs.readResult = .error .other →
      (repairFile fs args).1 = Outcome.errOther) ∧
    (∀ fs : FileSys, ∀ content, fs.pathExists = true → fs.pathIsFile = true →
      fs.readResult = .ok content → locate content = none →
      (repairFile fs args).1 = Outcome.errNotVenv) ∧
    (∀ fs : FileSys, ∀ bu,
      repairFile { fs with backupResult := bu } args = repairFile fs args) := by
  have hall : (∀ b ∈ runBatch files args, b = true) ↔
      ∀ fs ∈ files, (repairFile fs args).1 = Outcome.ok := by
    unfold runBatch
    constructor
    · intro h fs hfs
      have hx := h (repairOk fs args) (List.mem_map.mpr ⟨fs, hfs, rfl⟩)
      unfold repairOk at hx
      exact of_decide_eq_true hx
    · intro h b hb
      obtain ⟨fs, hfs, rfl⟩ := List.mem_map.mp hb
      unfold repairOk
      exact decide_eq_true (h fs hfs)
  have hzero : exitCode (runBatch files args) = 0 ↔
      ∀ fs ∈ files, (repairFile fs args).1 = Outcome.ok :=
    (exitCode_zero_iff _).trans hall
  refine ⟨List.length_map .., ?_, hzero, ?_, ?_, ?_, ?_, ?_, ?_⟩
  · constructor
    · intro h
      by_contra hne
      push_neg at hne
      exact h (hzero.mpr hne)
    · intro hx h0
      obtain ⟨fs, hfs, hne⟩ := hx
      exact hne (hzero.mp h0 fs hfs)
  · intro fs h
    simp [repairFile, h]
  · intro fs h1 h2
    simp [repairFile, h1, h2]
  · intro fs h1 h2 h3
    simp [repairFile, h1, h2, h3]
  · intro fs h1 h2 h3
    simp [repairFile, h1, h2, h3]
  · intro fs content h1 h2 h3 h4
    simp [repairFile, h1, h2, h3, h4]
  · intro fs bu
    rfl

/-- C9 witness: a batch of one missing file fails with exit status 1. -/
theorem C9_batch_exit_witness :
    (runBatch [⟨false, true, .ok [], .ok (), .ok ()⟩] ⟨[], true, false⟩).length = 1 ∧
    (repairFile ⟨false, true, .ok [], .ok (), .ok ()⟩ ⟨[], true, false⟩).1 =
      Outcome.errMissing ∧
    exitCode (runBatch [⟨false, true, .ok [], .ok (), .ok ()⟩] ⟨[], true, false⟩) ≠ 0 :=
  ⟨(C9_batch_exit [⟨false, true, .ok [], .ok (), .ok ()⟩] ⟨[], true, false⟩).1,
    (C9_batch_exit [⟨false, true, .ok [], .ok (), .ok ()⟩] ⟨[], true, false⟩).2.2.2.1
      ⟨false, true, .ok [], .ok (), .ok ()⟩ rfl,
    (C9_batch_exit [⟨false, true, .ok [], .ok (), .ok ()⟩] ⟨[], true, false⟩).2.1.mpr
      ⟨⟨false, true, .ok [], .ok (), .ok ()⟩, List.mem_singleton.mpr rfl, by decide⟩⟩

/-- C10: `Locate` returns NotFound exactly when the bytes contain no `#!`
marker; whenever a marker occurs — in particular as the final two bytes of
the data — the secondary search matches (possibly with an empty field), so
NotFound never occurs for bytes containing `#!`. -/
theorem C10_notfound_iff_no_marker (content : List Nat) :
    (locate content = none ↔ ∀ q, ¬ markerAt content q) ∧
    (∀ q, markerAt content q →
      (∃ s e, findSecondary content = some (s, e)) ∧ locate content ≠ none) ∧
    (∀ pre, content = pre ++ [35, 33] →
      markerAt content pre.length ∧ locate content ≠ none) := by
  refine ⟨locate_none_iff content, ?_, ?_⟩
  · intro q hm
    refine ⟨findSecondary_isSome hm, ?_⟩
    intro hn
    exact (locate_none_iff content).mp hn q hm
  · intro pre hc
    have hm : markerAt content pre.length := by
      subst hc
      constructor
      · rw [List.getElem?_append_right (le_refl _)]
        simp
      · rw [List.getElem?_append_right (by omega)]
        simp
    exact ⟨hm, fun hn => (locate_none_iff content).mp hn _ hm⟩

/-- C10 witness: bytes ending in the marker, `b"x#!"`, are located with an
empty field rather than NotFound. -/
theorem C10_notfound_iff_no_marker_witness :
    markerAt [120, 35, 33] (List.length ([120] : List Nat)) ∧
    locate [120, 35, 33] ≠ none :=
  (C10_notfound_iff_no_marker [120, 35, 33]).2.2 [120] rfl

end VenvFix
